import Mathlib

/-!
Verification of the AutoChatter core against its sources:
* `yt_client.py` — `post_comment` retry/backoff loop, `_parse_duration`,
  `get_video_duration`, `is_short`;
* `state.py` — `StateManager` (load/save/mark-seen/is-seen);
* `main.py` — `process_video` and `check_for_new_videos` (one poll cycle);
* `config.py` — the retry and filter settings referenced by the above.

Remote calls, the clock and the file system are modelled as explicit inputs
(an outcome oracle for the comment-insert call, a response for the duration
fetch, a success flag for each file write); everything else is translated
directly from the Python sources.
-/

namespace AutoChatter

/-! ## Retry policy — `yt_client.py`, `YouTubeClient.post_comment`

One remote attempt of `commentThreads().insert(...).execute()` either
succeeds, raises an `HttpError` with a status code, or raises some other
exception.  The loop classifies an `HttpError` with status `429` or `>= 500`
as transient and retries with exponential backoff; every other failure
returns `False` at once. -/

/-- Result of one remote comment-insert attempt, as observed by the
`try/except` blocks of `post_comment`. -/
inductive Outcome where
  | success
  | httpError (status : Nat)
  | otherError
deriving DecidableEq

/-- The transient-failure class of `post_comment`:
`status_code == 429 or status_code >= 500`. -/
def isTransient : Outcome → Bool
  | Outcome.httpError s => s == 429 || decide (500 ≤ s)
  | _ => false

/-- A failure the loop does not retry: any `HttpError` outside the
429/5xx class, or any other exception. -/
def isNonTransientFailure : Outcome → Bool
  | Outcome.success => false
  | Outcome.httpError s => !(s == 429 || decide (500 ≤ s))
  | Outcome.otherError => true

/-- The retry settings from `config.py` (`MAX_RETRIES`, `INITIAL_BACKOFF`,
`MAX_BACKOFF`).  `maxRetries` is an `Int` because the Python comparison
`retries < MAX_RETRIES` is meaningful for zero and negative settings. -/
structure RetryConfig where
  maxRetries : Int
  initialBackoff : Nat
  maxBackoff : Nat
deriving DecidableEq

/-- Observable behaviour of one `post_comment` call: the returned boolean,
the list of `time.sleep` durations in order, the number of remote attempts
made, and whether the retries-exhausted error was logged. -/
structure PostResult where
  success : Bool
  sleeps : List Nat
  attempts : Nat
  exhausted : Bool
deriving DecidableEq

/-- The `while retries < MAX_RETRIES` loop of `post_comment`.  At the top of
each iteration `retries` equals the number of attempts already made, so the
remaining iteration budget `MAX_RETRIES - retries` is the `fuel` argument;
`oracle j` is the outcome of the `j`-th remaining remote attempt. -/
def postCommentLoop (c : Nat) : Nat → (Nat → Outcome) → Nat → PostResult
  | 0, _, _ => ⟨false, [], 0, false⟩
  | fuel + 1, oracle, backoff =>
    match oracle 0 with
    | Outcome.success => ⟨true, [], 1, false⟩
    | Outcome.httpError s =>
      if s == 429 || decide (500 ≤ s) then
        -- transient: `retries += 1`, then `if retries < MAX_RETRIES`
        if fuel = 0 then ⟨false, [], 1, true⟩
        else
          let rest := postCommentLoop c fuel (fun j => oracle (j + 1)) (min (backoff * 2) c)
          ⟨rest.success, backoff :: rest.sleeps, rest.attempts + 1, rest.exhausted⟩
      else ⟨false, [], 1, false⟩
    | Outcome.otherError => ⟨false, [], 1, false⟩

/-- `YouTubeClient.post_comment`: `retries = 0`, `backoff = INITIAL_BACKOFF`,
then the retry loop. -/
def post_comment (cfg : RetryConfig) (oracle : Nat → Outcome) : PostResult :=
  postCommentLoop cfg.maxBackoff cfg.maxRetries.toNat oracle cfg.initialBackoff

/-- The successive values taken by the `backoff` variable: `backoffSeq c b k`
is the backoff used for the sleep after the `k`-th transient failure when the
loop entered with backoff `b` and cap `c`. -/
def backoffSeq (c : Nat) : Nat → Nat → Nat
  | b, 0 => b
  | b, k + 1 => backoffSeq c (min (b * 2) c) k

/-- Prepend an already-performed run of sleeps/attempts to a loop result. -/
def withRunBefore (pre : List Nat) (p : Nat) (r : PostResult) : PostResult :=
  ⟨r.success, pre ++ r.sleeps, r.attempts + p, r.exhausted⟩

theorem min_mul_right_nat (x y z : Nat) : min x y * z = min (x * z) (y * z) := by
  rcases le_total x y with h | h
  · rw [Nat.min_eq_left h, Nat.min_eq_left (mul_le_mul_right' h z)]
  · rw [Nat.min_eq_right h, Nat.min_eq_right (mul_le_mul_right' h z)]

theorem backoffSeq_closed (c : Nat) :
    ∀ (k b : Nat), b ≤ c → backoffSeq c b k = min (b * 2 ^ k) c := by
  intro k
  induction k with
  | zero =>
    intro b hb
    rw [backoffSeq, pow_zero, Nat.mul_one]
    omega
  | succ k ih =>
    intro b hb
    rw [backoffSeq, ih (min (b * 2) c) (Nat.min_le_right _ _), min_mul_right_nat]
    have h1 : b * 2 * 2 ^ k = b * 2 ^ (k + 1) := by ring
    have h2 : c ≤ c * 2 ^ k := Nat.le_mul_of_pos_right c (Nat.pos_pow_of_pos k (by norm_num))
    rw [Nat.min_assoc, Nat.min_eq_right h2, h1]

theorem range_map_backoffSeq (c b p : Nat) :
    (List.range (p + 1)).map (backoffSeq c b) =
      b :: (List.range p).map (backoffSeq c (min (b * 2) c)) := by
  rw [List.range_succ_eq_map, List.map_cons, List.map_map]
  rfl

/-- A run of `p` transient failures at the head of the oracle contributes
`p` sleeps (at the successive backoff values) and `p` attempts, after which
the loop continues with the shifted oracle and the evolved backoff. -/
theorem postCommentLoop_shift (c : Nat) :
    ∀ (p fuel : Nat) (oracle : Nat → Outcome) (b : Nat),
      p < fuel →
      (∀ j, j < p → isTransient (oracle j) = true) →
      postCommentLoop c fuel oracle b =
        withRunBefore ((List.range p).map (backoffSeq c b)) p
          (postCommentLoop c (fuel - p) (fun j => oracle (j + p)) (backoffSeq c b p)) := by
  intro p
  induction p with
  | zero =>
    intro fuel oracle b _ _
    simp only [withRunBefore, Nat.sub_zero, List.range_zero, List.map_nil,
      List.nil_append, Nat.add_zero]
    rfl
  | succ p ih =>
    intro fuel oracle b hlt htr
    obtain ⟨f, rfl⟩ : ∃ f, fuel = f + 1 := ⟨fuel - 1, by omega⟩
    have h0 : isTransient (oracle 0) = true := htr 0 (Nat.succ_pos p)
    rcases ho : oracle 0 with _ | s | _
    · rw [ho] at h0; simp [isTransient] at h0
    · have hcond : (s == 429 || decide (500 ≤ s)) = true := by
        rw [ho] at h0; simpa [isTransient] using h0
      have hf : ¬ (f = 0) := by omega
      rw [postCommentLoop, ho]
      simp only [hcond, if_true, if_neg hf]
      rw [ih f (fun j => oracle (j + 1)) (min (b * 2) c) (by omega)
        (fun j hj => htr (j + 1) (by omega))]
      have hsh : (fun j => oracle (j + p + 1)) = fun j => oracle (j + (p + 1)) :=
        funext fun j => by rw [Nat.add_assoc]
      have hfp : f - p = f + 1 - (p + 1) := by omega
      have hbk : backoffSeq c (min (b * 2) c) p = backoffSeq c b (p + 1) := rfl
      rw [hsh, hfp, hbk]
      simp only [withRunBefore, range_map_backoffSeq, List.cons_append]
      simp [Nat.add_assoc]
    · rw [ho] at h0; simp [isTransient] at h0

/-- `N` transient failures with still enough budget, then a success:
the loop returns `True` after `N` sleeps and `N + 1` attempts. -/
theorem postCommentLoop_success (c N fuel : Nat) (oracle : Nat → Outcome) (b : Nat)
    (hlt : N < fuel) (htr : ∀ j, j < N → isTransient (oracle j) = true)
    (hs : oracle N = Outcome.success) :
    postCommentLoop c fuel oracle b =
      ⟨true, (List.range N).map (backoffSeq c b), N + 1, false⟩ := by
  rw [postCommentLoop_shift c N fuel oracle b hlt htr]
  obtain ⟨g, hg⟩ : ∃ g, fuel - N = g + 1 := ⟨fuel - N - 1, by omega⟩
  rw [hg, postCommentLoop]
  have h0 : (fun j => oracle (j + N)) 0 = Outcome.success := by
    simpa [Nat.zero_add] using hs
  simp only [h0]
  simp [withRunBefore, Nat.add_comm]

/-- Transient failures all the way through the budget: the loop returns
`False` after `fuel - 1` sleeps and `fuel` attempts, logging exhaustion. -/
theorem postCommentLoop_exhaust (c fuel : Nat) (oracle : Nat → Outcome) (b : Nat)
    (h1 : 1 ≤ fuel) (htr : ∀ j, j < fuel → isTransient (oracle j) = true) :
    postCommentLoop c fuel oracle b =
      ⟨false, (List.range (fuel - 1)).map (backoffSeq c b), fuel, true⟩ := by
  rw [postCommentLoop_shift c (fuel - 1) fuel oracle b (by omega)
    (fun j hj => htr j (by omega))]
  have hfp : fuel - (fuel - 1) = 0 + 1 := by omega
  rw [hfp, postCommentLoop]
  have h0 : isTransient ((fun j => oracle (j + (fuel - 1))) 0) = true := by
    simpa [Nat.zero_add] using htr (fuel - 1) (by omega)
  rcases ho : (fun j => oracle (j + (fuel - 1))) 0 with _ | s | _
  · rw [ho] at h0; simp [isTransient] at h0
  · have hcond : (s == 429 || decide (500 ≤ s)) = true := by
      rw [ho] at h0; simpa [isTransient] using h0
    simp only [ho, hcond, if_true, if_pos rfl]
    simp [withRunBefore]
    omega
  · rw [ho] at h0; simp [isTransient] at h0

/-- A non-transient failure at position `p` of the attempt sequence:
the loop returns `False` at once, with no sleep for that failure and no
further attempt. -/
theorem postCommentLoop_nontransient (c p fuel : Nat) (oracle : Nat → Outcome) (b : Nat)
    (hlt : p < fuel) (htr : ∀ j, j < p → isTransient (oracle j) = true)
    (hnt : isNonTransientFailure (oracle p) = true) :
    postCommentLoop c fuel oracle b =
      ⟨false, (List.range p).map (backoffSeq c b), p + 1, false⟩ := by
  rw [postCommentLoop_shift c p fuel oracle b hlt htr]
  obtain ⟨g, hg⟩ : ∃ g, fuel - p = g + 1 := ⟨fuel - p - 1, by omega⟩
  rw [hg, postCommentLoop]
  rcases ho : (fun j => oracle (j + p)) 0 with _ | s | _
  · have ho' : oracle p = Outcome.success := by simpa using ho
    rw [ho'] at hnt
    simp [isNonTransientFailure] at hnt
  · have hcond : (s == 429 || decide (500 ≤ s)) = false := by
      have ho' : oracle p = Outcome.httpError s := by simpa using ho
      rw [ho'] at hnt
      simpa [isNonTransientFailure] using hnt
    simp only [ho, hcond]
    simp [withRunBefore, Nat.add_comm]
  · simp only [ho]
    simp [withRunBefore, Nat.add_comm]

/-- C1 (amended): for `post_comment` with configured `maxRetries = R ≥ 1`,
`initialBackoff = i` and `maxBackoff = c` where `i ≤ c`, on any outcome
sequence of `N` transient failures followed by a success: if `N < R` the call
returns success after exactly `N` sleeps, the sleep at 0-based attempt index
`k` lasting `min(i * 2^k, c)` seconds; if `N ≥ R` it returns failure after
exactly `R - 1` sleeps, logs exhaustion, and makes no attempt beyond the
`R`-th.  (The code sleeps the raw initial backoff first, so `i ≤ c` is
needed for the `min` formula at `k = 0`.) -/
theorem post_comment_retry_policy (cfg : RetryConfig) (oracle : Nat → Outcome) (N : Nat)
    (hR : 1 ≤ cfg.maxRetries) (hbc : cfg.initialBackoff ≤ cfg.maxBackoff)
    (hfail : ∀ j, j < N → isTransient (oracle j) = true)
    (hsucc : oracle N = Outcome.success) :
    ((N : Int) < cfg.maxRetries →
      post_comment cfg oracle =
        ⟨true, (List.range N).map (fun k => min (cfg.initialBackoff * 2 ^ k) cfg.maxBackoff),
          N + 1, false⟩) ∧
    (cfg.maxRetries ≤ (N : Int) →
      post_comment cfg oracle =
        ⟨false,
          (List.range (cfg.maxRetries.toNat - 1)).map
            (fun k => min (cfg.initialBackoff * 2 ^ k) cfg.maxBackoff),
          cfg.maxRetries.toNat, true⟩) := by
  have hfun : backoffSeq cfg.maxBackoff cfg.initialBackoff =
      fun k => min (cfg.initialBackoff * 2 ^ k) cfg.maxBackoff :=
    funext fun k => backoffSeq_closed cfg.maxBackoff k cfg.initialBackoff hbc
  constructor
  · intro hN
    have hlt : N < cfg.maxRetries.toNat := by omega
    rw [post_comment, postCommentLoop_success cfg.maxBackoff N _ oracle _ hlt hfail hsucc,
      hfun]
  · intro hN
    have h1 : 1 ≤ cfg.maxRetries.toNat := by omega
    have hle : cfg.maxRetries.toNat ≤ N := by omega
    rw [post_comment, postCommentLoop_exhaust cfg.maxBackoff _ oracle _ h1
      (fun j hj => hfail j (by omega)), hfun]

/-- C1 counterexample to the claim as stated: with `maxRetries = 2`,
`initialBackoff = 3`, `maxBackoff = 1` (no `i ≤ c` assumption) and one
transient failure followed by a success, the single sleep lasts 3 seconds —
the raw initial backoff — not `min(3 * 2^0, 1) = 1` as the claimed formula
requires: the code never caps the backoff before the first sleep. -/
theorem post_comment_first_sleep_uncapped :
    (1 : Int) < (2 : Int) ∧
    (∀ j, j < 1 →
      isTransient ((fun j => if j = 0 then Outcome.httpError 503 else Outcome.success) j)
        = true) ∧
    (fun j => if j = 0 then Outcome.httpError 503 else Outcome.success) 1
      = Outcome.success ∧
    (post_comment ⟨2, 3, 1⟩
        (fun j => if j = 0 then Outcome.httpError 503 else Outcome.success)).sleeps ≠
      (List.range 1).map (fun k => min (3 * 2 ^ k) 1) := by
  decide

/-- Witness for `post_comment_retry_policy`: `maxRetries = 3`,
`initialBackoff = 1`, `maxBackoff = 300`, one 429 failure then success. -/
theorem post_comment_retry_policy_witness :
    post_comment ⟨3, 1, 300⟩
        (fun j => if j = 0 then Outcome.httpError 429 else Outcome.success) =
      ⟨true, [1], 2, false⟩ := by
  have h := (post_comment_retry_policy ⟨3, 1, 300⟩
      (fun j => if j = 0 then Outcome.httpError 429 else Outcome.success) 1
      (by decide) (by decide) (by decide) (by decide)).1 (by decide)
  rw [h]
  decide

/-- C4: a failure classified as non-transient (an `HttpError` outside the
429/5xx class, or any other exception), at any position `p` of the attempt
sequence, makes `post_comment` return failure immediately: no sleep for that
failure and no remote attempt after it. -/
theorem post_comment_nontransient_stops (cfg : RetryConfig) (oracle : Nat → Outcome) (p : Nat)
    (hp : (p : Int) < cfg.maxRetries)
    (hfail : ∀ j, j < p → isTransient (oracle j) = true)
    (hnt : isNonTransientFailure (oracle p) = true) :
    (post_comment cfg oracle).success = false ∧
    (post_comment cfg oracle).sleeps.length = p ∧
    (post_comment cfg oracle).attempts = p + 1 ∧
    (post_comment cfg oracle).exhausted = false := by
  have hlt : p < cfg.maxRetries.toNat := by omega
  rw [post_comment, postCommentLoop_nontransient cfg.maxBackoff p _ oracle _ hlt hfail hnt]
  simp

/-- Witness for `post_comment_nontransient_stops`: a 500 then a 403. -/
theorem post_comment_nontransient_stops_witness :
    (post_comment ⟨5, 1, 300⟩
        (fun j => if j = 0 then Outcome.httpError 500 else Outcome.httpError 403)).success
      = false ∧
    (post_comment ⟨5, 1, 300⟩
        (fun j => if j = 0 then Outcome.httpError 500 else Outcome.httpError 403)).sleeps.length
      = 1 ∧
    (post_comment ⟨5, 1, 300⟩
        (fun j => if j = 0 then Outcome.httpError 500 else Outcome.httpError 403)).attempts
      = 1 + 1 ∧
    (post_comment ⟨5, 1, 300⟩
        (fun j => if j = 0 then Outcome.httpError 500 else Outcome.httpError 403)).exhausted
      = false :=
  post_comment_nontransient_stops ⟨5, 1, 300⟩
    (fun j => if j = 0 then Outcome.httpError 500 else Outcome.httpError 403) 1
    (by decide) (by decide) (by decide)

/-- C10: with `MAX_RETRIES` zero or negative the guard
`retries < MAX_RETRIES` fails at once: `post_comment` returns failure with
no remote attempt and no sleep. -/
theorem post_comment_no_budget (cfg : RetryConfig) (oracle : Nat → Outcome)
    (h : cfg.maxRetries ≤ 0) :
    post_comment cfg oracle = ⟨false, [], 0, false⟩ := by
  have h0 : cfg.maxRetries.toNat = 0 := by omega
  rw [post_comment, h0]
  rfl

/-- Witness for `post_comment_no_budget` at `maxRetries = -2`. -/
theorem post_comment_no_budget_witness :
    post_comment ⟨-2, 1, 300⟩ (fun _ => Outcome.success) = ⟨false, [], 0, false⟩ :=
  post_comment_no_budget ⟨-2, 1, 300⟩ (fun _ => Outcome.success) (by decide)

/-! ## Duration parsing — `yt_client.py`, `YouTubeClient._parse_duration`

The parser strips `PT` (Python `str.replace`, every occurrence), then runs
`re.search(r'(\d+)H')`, `re.search(r'(\d+)M')`, `re.search(r'(\d+)S')` on
the remainder and sums `hours * 3600 + minutes * 60 + seconds`.  Strings are
modelled as `List Char`. -/

/-- `duration.replace('PT', '')`: delete every non-overlapping, leftmost
occurrence of the two-character substring `PT`. -/
def removePT : List Char → List Char
  | [] => []
  | [ch] => [ch]
  | ch1 :: ch2 :: rest =>
    if ch1 = 'P' ∧ ch2 = 'T' then removePT rest
    else ch1 :: removePT (ch2 :: rest)

/-- `re.search(r'(\d+)' + unit, s)` for a non-digit `unit` character: scan
left to right, `cur` tracking the digit run ending just before the current
position; at the first `unit` occurrence immediately preceded by at least
one digit, return that maximal run (the leftmost match of the regex, whose
greedy group is the whole run). -/
def scanUnit (u : Char) : Option (List Char) → List Char → Option (List Char)
  | _, [] => none
  | cur, ch :: rest =>
    if ch.isDigit then scanUnit u (some (cur.getD [] ++ [ch])) rest
    else if ch = u then
      match cur with
      | some run => some run
      | none => scanUnit u none rest
    else scanUnit u none rest

/-- `re.search` entry point: scanning starts with no digit run in hand. -/
def searchUnit (u : Char) (l : List Char) : Option (List Char) :=
  scanUnit u none l

/-- `int(...)` on a decimal digit string. -/
def natOfDigits (ds : List Char) : Nat :=
  ds.foldl (fun a ch => a * 10 + (ch.toNat - 48)) 0

/-- `YouTubeClient._parse_duration`: strip `PT`, read the digit runs before
`H`, `M` and `S` (0 when absent), return `hours*3600 + minutes*60 + seconds`. -/
def parse_duration (s : List Char) : Nat :=
  let d := removePT s
  let hours := match searchUnit 'H' d with
    | some ds => natOfDigits ds
    | none => 0
  let minutes := match searchUnit 'M' d with
    | some ds => natOfDigits ds
    | none => 0
  let seconds := match searchUnit 'S' d with
    | some ds => natOfDigits ds
    | none => 0
  hours * 3600 + minutes * 60 + seconds

/-- `YouTubeClient.get_video_duration`: the remote fetch either fails (HTTP
error, other exception, or an empty `items` list) — modelled as `none` — or
yields a duration string, which is parsed. -/
def get_video_duration (resp : Option (List Char)) : Option Nat :=
  resp.map parse_duration

/-- `YouTubeClient.is_short`: `False` when no duration could be fetched,
otherwise `duration <= MAX_SHORTS_DURATION`. -/
def is_short (maxShortsDuration : Nat) (resp : Option (List Char)) : Bool :=
  match get_video_duration resp with
  | none => false
  | some d => decide (d ≤ maxShortsDuration)

/-- One optional unit field of a compact duration token: its digits followed
by the unit letter, or nothing when the unit is absent. -/
def unitPart (u : Char) : Option (List Char) → List Char
  | none => []
  | some ds => ds ++ [u]

/-- The seconds-count factor a unit field denotes: `0` when absent, the value
of its digits when present. -/
def unitVal : Option (List Char) → Nat
  | none => 0
  | some ds => natOfDigits ds

/-- A compact duration token `PT[<h>H][<m>M][<s>S]` with each unit
optionally present. -/
def durToken (hd md sd : Option (List Char)) : List Char :=
  'P' :: 'T' :: (unitPart 'H' hd ++ (unitPart 'M' md ++ unitPart 'S' sd))

/-- Well-formedness of an optional unit field: when present, a nonempty
all-digit run. -/
def digitRun : Option (List Char) → Bool
  | none => true
  | some ds => !ds.isEmpty && ds.all Char.isDigit

theorem digitRun_some (ds : List Char) (h : digitRun (some ds) = true) :
    ds ≠ [] ∧ ∀ ch ∈ ds, ch.isDigit = true := by
  simp only [digitRun, Bool.and_eq_true, Bool.not_eq_true', List.isEmpty_eq_false,
    List.all_eq_true] at h
  exact ⟨h.1, h.2⟩

theorem isDigit_ne_P (ch : Char) (h : ch.isDigit = true) : ch ≠ 'P' := by
  intro he
  rw [he] at h
  exact absurd h (by decide)

theorem removePT_eq_self : ∀ l : List Char, (∀ ch ∈ l, ch ≠ 'P') → removePT l = l
  | [], _ => rfl
  | [ch], _ => rfl
  | ch1 :: ch2 :: rest, h => by
    have h1 : ch1 ≠ 'P' := h ch1 (by simp)
    simp only [removePT]
    rw [if_neg (by exact fun hc => h1 hc.1)]
    rw [removePT_eq_self (ch2 :: rest) (fun c hc => h c (List.mem_cons_of_mem ch1 hc))]

theorem scanUnit_digits (u : Char) :
    ∀ ds : List Char, ds ≠ [] → (∀ ch ∈ ds, ch.isDigit = true) →
      ∀ (cur : Option (List Char)) (tl : List Char),
        scanUnit u cur (ds ++ tl) = scanUnit u (some (cur.getD [] ++ ds)) tl := by
  intro ds
  induction ds with
  | nil => intro h; exact absurd rfl h
  | cons d ds' ih =>
    intro _ hdig cur tl
    have hd : d.isDigit = true := hdig d (by simp)
    rw [List.cons_append]
    simp only [scanUnit, hd, if_true]
    by_cases hds' : ds' = []
    · subst hds'
      simp [scanUnit]
    · rw [ih hds' (fun c hc => hdig c (List.mem_cons_of_mem d hc)) (some (cur.getD [] ++ [d])) tl]
      have harr : (cur.getD [] ++ [d]) ++ ds' = cur.getD [] ++ d :: ds' := by
        simp
      simp only [Option.getD_some, harr]

theorem scanUnit_found (u : Char) (hu : u.isDigit = false) (run tl : List Char) :
    scanUnit u (some run) (u :: tl) = some run := by
  simp [scanUnit, hu]

theorem scanUnit_skip (u v : Char) (hv : v.isDigit = false) (hne : v ≠ u)
    (cur : Option (List Char)) (tl : List Char) :
    scanUnit u cur (v :: tl) = scanUnit u none tl := by
  simp only [scanUnit, hv, Bool.false_eq_true, if_false, if_neg hne]

/-- Skipping a whole unit field whose letter is not the one searched for. -/
theorem scanUnit_skip_field (u w : Char) (o : Option (List Char))
    (hw : w.isDigit = false) (hne : w ≠ u) (hdr : digitRun o = true)
    (tl : List Char) :
    scanUnit u none (unitPart w o ++ tl) = scanUnit u none tl := by
  cases o with
  | none => rfl
  | some ds =>
    obtain ⟨hds, hdig⟩ := digitRun_some ds hdr
    rw [unitPart, List.append_assoc, List.singleton_append,
      scanUnit_digits u ds hds hdig none (w :: tl)]
    simpa using scanUnit_skip u w hw hne (some ds) tl

/-- Finding the searched-for unit field at the scan position. -/
theorem scanUnit_found_field (u : Char) (hu : u.isDigit = false) (ds : List Char)
    (hds : ds ≠ []) (hdig : ∀ ch ∈ ds, ch.isDigit = true) (tl : List Char) :
    scanUnit u none (unitPart u (some ds) ++ tl) = some ds := by
  rw [unitPart, List.append_assoc, List.singleton_append,
    scanUnit_digits u ds hds hdig none (u :: tl)]
  simpa using scanUnit_found u hu ds tl

theorem searchUnit_token_H (hd md sd : Option (List Char))
    (h1 : digitRun hd = true) (h2 : digitRun md = true) (h3 : digitRun sd = true) :
    searchUnit 'H' (unitPart 'H' hd ++ (unitPart 'M' md ++ unitPart 'S' sd)) = hd := by
  cases hd with
  | some ds =>
    obtain ⟨hds, hdig⟩ := digitRun_some ds h1
    exact scanUnit_found_field 'H' (by decide) ds hds hdig _
  | none =>
    show scanUnit 'H' none ([] ++ (unitPart 'M' md ++ unitPart 'S' sd)) = none
    rw [List.nil_append, scanUnit_skip_field 'H' 'M' md (by decide) (by decide) h2,
      ← List.append_nil (unitPart 'S' sd),
      scanUnit_skip_field 'H' 'S' sd (by decide) (by decide) h3]
    rfl

theorem searchUnit_token_M (hd md sd : Option (List Char))
    (h1 : digitRun hd = true) (h2 : digitRun md = true) (h3 : digitRun sd = true) :
    searchUnit 'M' (unitPart 'H' hd ++ (unitPart 'M' md ++ unitPart 'S' sd)) = md := by
  rw [searchUnit, scanUnit_skip_field 'M' 'H' hd (by decide) (by decide) h1]
  cases md with
  | some ds =>
    obtain ⟨hds, hdig⟩ := digitRun_some ds h2
    exact scanUnit_found_field 'M' (by decide) ds hds hdig _
  | none =>
    show scanUnit 'M' none ([] ++ unitPart 'S' sd) = none
    rw [List.nil_append, ← List.append_nil (unitPart 'S' sd),
      scanUnit_skip_field 'M' 'S' sd (by decide) (by decide) h3]
    rfl

theorem searchUnit_token_S (hd md sd : Option (List Char))
    (h1 : digitRun hd = true) (h2 : digitRun md = true) (h3 : digitRun sd = true) :
    searchUnit 'S' (unitPart 'H' hd ++ (unitPart 'M' md ++ unitPart 'S' sd)) = sd := by
  rw [searchUnit, scanUnit_skip_field 'S' 'H' hd (by decide) (by decide) h1,
    scanUnit_skip_field 'S' 'M' md (by decide) (by decide) h2]
  cases sd with
  | some ds =>
    obtain ⟨hds, hdig⟩ := digitRun_some ds h3
    rw [← List.append_nil (unitPart 'S' (some ds))]
    exact scanUnit_found_field 'S' (by decide) ds hds hdig []
  | none => rfl

theorem unitPart_no_P (w : Char) (o : Option (List Char)) (hw : w ≠ 'P')
    (hdr : digitRun o = true) : ∀ ch ∈ unitPart w o, ch ≠ 'P' := by
  cases o with
  | none => simp [unitPart]
  | some ds =>
    obtain ⟨-, hdig⟩ := digitRun_some ds hdr
    intro ch hch
    rw [unitPart] at hch
    rcases List.mem_append.mp hch with h | h
    · exact isDigit_ne_P ch (hdig ch h)
    · rw [List.mem_singleton.mp h]
      exact hw

/-- C8: on every compact duration token `PT[hH][mM][sS]` with each unit
optionally present (and, when present, a nonempty digit run), the parser
returns `h*3600 + m*60 + s` total seconds, absent units contributing zero. -/
theorem parse_duration_compact (hd md sd : Option (List Char))
    (h1 : digitRun hd = true) (h2 : digitRun md = true) (h3 : digitRun sd = true) :
    parse_duration (durToken hd md sd) =
      unitVal hd * 3600 + unitVal md * 60 + unitVal sd := by
  have hnoP : ∀ ch ∈ unitPart 'H' hd ++ (unitPart 'M' md ++ unitPart 'S' sd), ch ≠ 'P' := by
    intro ch hch
    rcases List.mem_append.mp hch with h | h
    · exact unitPart_no_P 'H' hd (by decide) h1 ch h
    · rcases List.mem_append.mp h with h | h
      · exact unitPart_no_P 'M' md (by decide) h2 ch h
      · exact unitPart_no_P 'S' sd (by decide) h3 ch h
  have hrm : removePT (durToken hd md sd) =
      unitPart 'H' hd ++ (unitPart 'M' md ++ unitPart 'S' sd) := by
    rw [durToken]
    show removePT ('P' :: 'T' :: _) = _
    rw [removePT.eq_3, if_pos ⟨rfl, rfl⟩]
    exact removePT_eq_self _ hnoP
  rw [parse_duration]
  simp only [hrm, searchUnit_token_H hd md sd h1 h2 h3,
    searchUnit_token_M hd md sd h1 h2 h3, searchUnit_token_S hd md sd h1 h2 h3]
  cases hd <;> cases md <;> cases sd <;> simp [unitVal]

/-- Witness for `parse_duration_compact`: `PT1M30S` parses to 90 seconds. -/
theorem parse_duration_compact_witness :
    parse_duration (durToken none (some ['1']) (some ['3', '0'])) = 90 := by
  have h := parse_duration_compact none (some ['1']) (some ['3', '0'])
    (by decide) (by decide) (by decide)
  rw [h]
  decide

/-! ## Seen-video store — `state.py`, `StateManager`

The Python set of seen ids is modelled as a duplicate-free `List String`
(`insertId` adds only when absent, so membership and size agree with the
set).  The state file is modelled by `FileContent`: absent, unreadable
(malformed JSON or any other load failure), or a well-formed document with
the two persisted fields.  A write is given a success flag; on failure the
file keeps whatever content it had (`save_state` only logs the error). -/

/-- In-memory fields of `StateManager`: `last_seen_videos` and
`last_check_time`. -/
structure StateManager where
  last_seen_videos : List String
  last_check_time : Option String
deriving DecidableEq

/-- The persisted state file as the load/save paths observe it. -/
inductive FileContent where
  | absent
  | malformed
  | wellFormed (videos : List String) (time : Option String)
deriving DecidableEq

/-- Which branch of `load_state` ran, i.e. what it logged. -/
inductive LoadEvent where
  | loadedExisting
  | startedFresh
  | loggedLoadError
deriving DecidableEq

/-- Set-insert on the id list: `self.last_seen_videos.add(video_id)`. -/
def insertId (v : String) (l : List String) : List String :=
  if v ∈ l then l else v :: l

/-- `StateManager.is_video_seen`: `video_id in self.last_seen_videos`. -/
def is_video_seen (st : StateManager) (v : String) : Bool :=
  decide (v ∈ st.last_seen_videos)

/-- `StateManager.load_state`: a missing file leaves the fresh fields, a
malformed file resets them after the exception, a well-formed file installs
the persisted values. -/
def load_state (fs : FileContent) (st : StateManager) : StateManager :=
  match fs with
  | FileContent.absent => st
  | FileContent.malformed => { st with last_seen_videos := [], last_check_time := none }
  | FileContent.wellFormed vids t => { st with last_seen_videos := vids, last_check_time := t }

/-- What `load_state` logs for each file condition. -/
def load_event : FileContent → LoadEvent
  | FileContent.absent => LoadEvent.startedFresh
  | FileContent.malformed => LoadEvent.loggedLoadError
  | FileContent.wellFormed _ _ => LoadEvent.loadedExisting

/-- `StateManager.__init__`: empty fields, then `load_state()`. -/
def stateManagerInit (fs : FileContent) : StateManager :=
  load_state fs ⟨[], none⟩

/-- `StateManager.save_state`: on a successful write the file holds exactly
the in-memory fields; on failure the error is only logged and the file is
left as it was.  Either way the call returns normally. -/
def save_state (st : StateManager) (writeOk : Bool) (fs : FileContent) : FileContent :=
  if writeOk then FileContent.wellFormed st.last_seen_videos st.last_check_time else fs

/-- `StateManager.mark_video_seen`: add the id, stamp `last_check_time`
with the current time, then `save_state()`. -/
def mark_video_seen (st : StateManager) (v now : String) (writeOk : Bool)
    (fs : FileContent) : StateManager × FileContent :=
  let st' : StateManager := ⟨insertId v st.last_seen_videos, some now⟩
  (st', save_state st' writeOk fs)

/-- One public operation on the store after construction. -/
inductive StoreOp where
  | opIsSeen (v : String)
  | opMarkSeen (v now : String) (writeOk : Bool)
  | opSave (writeOk : Bool)

/-- Effect of one store operation on memory and file. -/
def stepOp : StateManager × FileContent → StoreOp → StateManager × FileContent
  | (st, fs), StoreOp.opIsSeen _ => (st, fs)
  | (st, fs), StoreOp.opMarkSeen v now ok => mark_video_seen st v now ok fs
  | (st, fs), StoreOp.opSave ok => (st, save_state st ok fs)

/-- A sequence of store operations, run in order. -/
def runOps (s : StateManager × FileContent) (ops : List StoreOp) : StateManager × FileContent :=
  ops.foldl stepOp s

theorem mem_insertId (w v : String) (l : List String) :
    v ∈ insertId w l ↔ v = w ∨ v ∈ l := by
  by_cases h : w ∈ l
  · rw [insertId, if_pos h]
    exact ⟨fun hv => Or.inr hv, fun hv => hv.elim (fun e => e ▸ h) id⟩
  · rw [insertId, if_neg h, List.mem_cons]

theorem length_insertId_of_not_mem (v : String) (l : List String) (h : v ∉ l) :
    (insertId v l).length = l.length + 1 := by
  rw [insertId, if_neg h, List.length_cons]

/-- C5: after `mark_video_seen v` (with the write succeeding),
`is_video_seen v` holds, and it still holds in a fresh store constructed
from the file just written — the save/load round trip preserves membership
of the seen set. -/
theorem mark_seen_roundtrip (st : StateManager) (fs : FileContent) (v now : String) :
    is_video_seen (mark_video_seen st v now true fs).1 v = true ∧
    is_video_seen (stateManagerInit (mark_video_seen st v now true fs).2) v = true := by
  have hmem : v ∈ insertId v st.last_seen_videos := (mem_insertId v v _).mpr (Or.inl rfl)
  constructor
  · simpa [mark_video_seen, is_video_seen] using hmem
  · simpa [mark_video_seen, save_state, stateManagerInit, load_state, is_video_seen] using hmem

/-- C6: when persisting fails during `mark_video_seen`, the call still
returns (the error is only logged) and the in-memory state is exactly the
mutated state — identical to the state after a successful write: the seen
set contains the new id and `last_check_time` is updated. -/
theorem mark_seen_write_failure (st : StateManager) (fs : FileContent) (v now : String) :
    (mark_video_seen st v now false fs).1 = (mark_video_seen st v now true fs).1 ∧
    (mark_video_seen st v now false fs).1.last_seen_videos = insertId v st.last_seen_videos ∧
    (mark_video_seen st v now false fs).1.last_check_time = some now ∧
    (mark_video_seen st v now false fs).2 = fs := by
  exact ⟨rfl, rfl, rfl, rfl⟩

/-- C7: the seen set is monotone across any sequence of store operations —
an id that is seen stays seen after every `is_video_seen`, `mark_video_seen`
(regardless of write success) and `save_state`. -/
theorem seen_monotone (ops : List StoreOp) :
    ∀ (st : StateManager) (fs : FileContent) (v : String),
      is_video_seen st v = true → is_video_seen (runOps (st, fs) ops).1 v = true := by
  induction ops with
  | nil => intro st fs v h; exact h
  | cons op rest ih =>
    intro st fs v h
    have hmem : v ∈ st.last_seen_videos := by simpa [is_video_seen] using h
    cases op with
    | opIsSeen w => exact ih st fs v h
    | opMarkSeen w now ok =>
      refine ih _ _ v ?_
      simpa [mark_video_seen, is_video_seen] using (mem_insertId w v _).mpr (Or.inr hmem)
    | opSave ok => exact ih st _ v h

/-- Witness for `seen_monotone`: a marked id survives a later mark of a
different id, a failed save and a lookup. -/
theorem seen_monotone_witness :
    is_video_seen
      (runOps (⟨["a"], none⟩, FileContent.absent)
        [StoreOp.opMarkSeen "b" "t1" true, StoreOp.opSave false, StoreOp.opIsSeen "a"]).1
      "a" = true :=
  seen_monotone
    [StoreOp.opMarkSeen "b" "t1" true, StoreOp.opSave false, StoreOp.opIsSeen "a"]
    ⟨["a"], none⟩ FileContent.absent "a" (by decide)

/-- C9: constructing the store from a nonexistent state file yields the
empty seen set and a null last-check time; constructing it from a malformed
file logs the error and yields the same empty state.  Both constructions
return normally (`load_state` is total). -/
theorem load_initial_states :
    stateManagerInit FileContent.absent = ⟨[], none⟩ ∧
    stateManagerInit FileContent.malformed = ⟨[], none⟩ ∧
    load_event FileContent.absent = LoadEvent.startedFresh ∧
    load_event FileContent.malformed = LoadEvent.loggedLoadError := by
  exact ⟨rfl, rfl, rfl, rfl⟩

/-! ## Poll cycle — `main.py`, `process_video` and `check_for_new_videos`

`process_video` takes the external world of its one video as an input
record: the duration-fetch response, the result the comment post would
report, the current time, and whether the state-file write succeeds.  The
random pre-comment delay and comment-text selection affect no modelled
state and are elided. -/

/-- One upload as returned by `get_channel_uploads`. -/
structure Video where
  id : String
  title : String
  publishedAt : String

/-- The `config.py` settings the poll cycle reads: `CHANNEL_ID`,
`SHORTS_ONLY`, `MAX_SHORTS_DURATION`.  The shipped values are
`SHORTS_ONLY = False` and `MAX_SHORTS_DURATION = 60`. -/
structure AppConfig where
  channelId : String
  shortsOnly : Bool
  maxShortsDuration : Nat

/-- The external inputs consumed while processing one video. -/
structure VideoEnv where
  durationResp : Option (List Char)
  postSuccess : Bool
  now : String
  writeOk : Bool

/-- Effects of `process_video`: the updated store and file, and how many
`post_comment` calls were made (0 or 1). -/
structure ProcResult where
  st : StateManager
  fs : FileContent
  postCalls : Nat

/-- `main.process_video`: skip if seen; in Shorts-only mode mark a
non-Short seen without commenting; otherwise delay, post the comment, and
mark seen regardless of the post result. -/
def process_video (cfg : AppConfig) (st : StateManager) (fs : FileContent)
    (videoId : String) (env : VideoEnv) : ProcResult :=
  if is_video_seen st videoId then ⟨st, fs, 0⟩
  else if cfg.shortsOnly && ! is_short cfg.maxShortsDuration env.durationResp then
    let m := mark_video_seen st videoId env.now env.writeOk fs
    ⟨m.1, m.2, 0⟩
  else
    let m := mark_video_seen st videoId env.now env.writeOk fs
    ⟨m.1, m.2, 1⟩

/-- Effects of one `check_for_new_videos` cycle: final store and file, the
`new_videos_count` tally, and the total number of `post_comment` calls. -/
structure CycleResult where
  st : StateManager
  fs : FileContent
  processed : Nat
  postCalls : Nat

/-- The `for video in videos` loop of `check_for_new_videos`: each video not
yet seen bumps `new_videos_count` and is handed to `process_video`. -/
def runVideos (cfg : AppConfig) (env : String → VideoEnv) :
    List Video → StateManager → FileContent → CycleResult
  | [], st, fs => ⟨st, fs, 0, 0⟩
  | v :: rest, st, fs =>
    if is_video_seen st v.id then runVideos cfg env rest st fs
    else
      let p := process_video cfg st fs v.id (env v.id)
      let r := runVideos cfg env rest p.st p.fs
      ⟨r.st, r.fs, r.processed + 1, r.postCalls + p.postCalls⟩

/-- `main.check_for_new_videos`: nothing happens without a configured
channel or when the fetch yields no videos; otherwise every fetched video
goes through the loop. -/
def check_for_new_videos (cfg : AppConfig) (st : StateManager) (fs : FileContent)
    (videos : List Video) (env : String → VideoEnv) : CycleResult :=
  if cfg.channelId = "" then ⟨st, fs, 0, 0⟩
  else if videos.isEmpty then ⟨st, fs, 0, 0⟩
  else runVideos cfg env videos st fs

theorem process_video_seen (cfg : AppConfig) (st : StateManager) (fs : FileContent)
    (vid : String) (env : VideoEnv) (h : is_video_seen st vid = true) :
    process_video cfg st fs vid env = ⟨st, fs, 0⟩ := by
  simp [process_video, h]

theorem process_video_unseen_noShorts (cfg : AppConfig) (st : StateManager)
    (fs : FileContent) (vid : String) (env : VideoEnv)
    (hso : cfg.shortsOnly = false) (h : is_video_seen st vid = false) :
    process_video cfg st fs vid env =
      ⟨⟨insertId vid st.last_seen_videos, some env.now⟩,
        save_state ⟨insertId vid st.last_seen_videos, some env.now⟩ env.writeOk fs, 1⟩ := by
  simp [process_video, h, hso, mark_video_seen]

theorem process_video_no_duration (cfg : AppConfig) (st : StateManager)
    (fs : FileContent) (vid : String) (env : VideoEnv)
    (hso : cfg.shortsOnly = true) (hdr : env.durationResp = none)
    (h : is_video_seen st vid = false) :
    process_video cfg st fs vid env =
      ⟨⟨insertId vid st.last_seen_videos, some env.now⟩,
        save_state ⟨insertId vid st.last_seen_videos, some env.now⟩ env.writeOk fs, 0⟩ := by
  simp [process_video, h, hso, hdr, is_short, get_video_duration, mark_video_seen]

/-- C2 counterexample: a video whose duration fetch yields no duration
(`durationResp = none`, so `get_video_duration` returns `none`) is *not*
left untouched for the next cycle — in Shorts-only mode `is_short` reports
`False` and `process_video` permanently marks the video seen. -/
theorem duration_failure_marks_seen_cex :
    get_video_duration (⟨none, true, "t0", true⟩ : VideoEnv).durationResp = none ∧
    is_video_seen (⟨[], none⟩ : StateManager) "v" = false ∧
    is_video_seen
      (process_video ⟨"ch", true, 60⟩ ⟨[], none⟩ FileContent.absent "v"
        ⟨none, true, "t0", true⟩).st "v" = true := by
  decide

/-- C2 (amended): a transiently failed duration fetch yields no duration and
the cycle posts no comment on that video; but in Shorts-only mode (the only
mode that fetches durations) the video is treated as a non-Short and marked
seen, so it will *not* be re-examined on later cycles. -/
theorem duration_failure_no_post_marks_seen (cfg : AppConfig) (st : StateManager)
    (fs : FileContent) (vid : String) (env : VideoEnv)
    (hso : cfg.shortsOnly = true) (hdr : env.durationResp = none)
    (hun : is_video_seen st vid = false) :
    get_video_duration env.durationResp = none ∧
    (process_video cfg st fs vid env).postCalls = 0 ∧
    is_video_seen (process_video cfg st fs vid env).st vid = true := by
  rw [process_video_no_duration cfg st fs vid env hso hdr hun, hdr]
  refine ⟨rfl, rfl, ?_⟩
  simpa [is_video_seen] using (mem_insertId vid vid st.last_seen_videos).mpr (Or.inl rfl)

/-- Witness for `duration_failure_no_post_marks_seen` on a concrete store
and video. -/
theorem duration_failure_no_post_marks_seen_witness :
    get_video_duration (⟨none, false, "t1", false⟩ : VideoEnv).durationResp = none ∧
    (process_video ⟨"ch", true, 60⟩ ⟨["w"], none⟩ FileContent.malformed "x"
      ⟨none, false, "t1", false⟩).postCalls = 0 ∧
    is_video_seen
      (process_video ⟨"ch", true, 60⟩ ⟨["w"], none⟩ FileContent.malformed "x"
        ⟨none, false, "t1", false⟩).st "x" = true :=
  duration_failure_no_post_marks_seen ⟨"ch", true, 60⟩ ⟨["w"], none⟩
    FileContent.malformed "x" ⟨none, false, "t1", false⟩ rfl rfl (by decide)

theorem is_video_seen_insert_ne (x w : String) (st : StateManager) (t : Option String)
    (h : w ≠ x) :
    is_video_seen ⟨insertId x st.last_seen_videos, t⟩ w = is_video_seen st w := by
  simp only [is_video_seen]
  rw [decide_eq_decide]
  exact (mem_insertId x w st.last_seen_videos).trans (or_iff_right h)

theorem is_video_seen_insert_self (x : String) (l : List String) (t : Option String) :
    is_video_seen ⟨insertId x l, t⟩ x = true := by
  simpa [is_video_seen] using (mem_insertId x x l).mpr (Or.inl rfl)

/-- What one cycle's video loop does when Shorts-only mode is off: each
video unseen when reached is counted, posted on, and marked seen; the seen
set only grows, every fetched id ends up seen, and (for fetches with
pairwise-distinct ids) the counts equal the number of initially-unseen
videos. -/
theorem runVideos_spec (cfg : AppConfig) (env : String → VideoEnv)
    (hso : cfg.shortsOnly = false) :
    ∀ (videos : List Video) (st : StateManager) (fs : FileContent),
      (videos.map Video.id).Nodup →
      (runVideos cfg env videos st fs).processed
          = (videos.filter (fun v => ! is_video_seen st v.id)).length ∧
      (runVideos cfg env videos st fs).postCalls
          = (videos.filter (fun v => ! is_video_seen st v.id)).length ∧
      (∀ v ∈ videos, is_video_seen (runVideos cfg env videos st fs).st v.id = true) ∧
      (∀ w, is_video_seen st w = true →
        is_video_seen (runVideos cfg env videos st fs).st w = true) ∧
      (runVideos cfg env videos st fs).st.last_seen_videos.length
          = st.last_seen_videos.length
            + (videos.filter (fun v => ! is_video_seen st v.id)).length := by
  intro videos
  induction videos with
  | nil =>
    intro st fs _
    simp [runVideos]
  | cons v rest ih =>
    intro st fs hnd
    rw [List.map_cons, List.nodup_cons] at hnd
    obtain ⟨hvn, hnd'⟩ := hnd
    by_cases hseen : is_video_seen st v.id = true
    · have hrun : runVideos cfg env (v :: rest) st fs = runVideos cfg env rest st fs := by
        simp [runVideos, hseen]
      have hfil : (v :: rest).filter (fun w => ! is_video_seen st w.id)
          = rest.filter (fun w => ! is_video_seen st w.id) := by
        simp [List.filter, hseen]
      obtain ⟨ih1, ih2, ih3, ih4, ih5⟩ := ih st fs hnd'
      refine ⟨?_, ?_, ?_, ?_, ?_⟩
      · rw [hrun, hfil]; exact ih1
      · rw [hrun, hfil]; exact ih2
      · intro w hw
        rcases List.mem_cons.mp hw with rfl | hw'
        · rw [hrun]; exact ih4 w.id hseen
        · rw [hrun]; exact ih3 w hw'
      · intro w hw
        rw [hrun]; exact ih4 w hw
      · rw [hrun, hfil]; exact ih5
    · have hseen' : is_video_seen st v.id = false := by
        revert hseen; cases is_video_seen st v.id <;> simp
      have hp : process_video cfg st fs v.id (env v.id) =
          ⟨⟨insertId v.id st.last_seen_videos, some ((env v.id).now)⟩,
            save_state ⟨insertId v.id st.last_seen_videos, some ((env v.id).now)⟩
              ((env v.id).writeOk) fs, 1⟩ :=
        process_video_unseen_noShorts cfg st fs v.id (env v.id) hso hseen'
      have hrun : runVideos cfg env (v :: rest) st fs =
          ⟨(runVideos cfg env rest
              ⟨insertId v.id st.last_seen_videos, some ((env v.id).now)⟩
              (save_state ⟨insertId v.id st.last_seen_videos, some ((env v.id).now)⟩
                ((env v.id).writeOk) fs)).st,
            (runVideos cfg env rest
              ⟨insertId v.id st.last_seen_videos, some ((env v.id).now)⟩
              (save_state ⟨insertId v.id st.last_seen_videos, some ((env v.id).now)⟩
                ((env v.id).writeOk) fs)).fs,
            (runVideos cfg env rest
              ⟨insertId v.id st.last_seen_videos, some ((env v.id).now)⟩
              (save_state ⟨insertId v.id st.last_seen_videos, some ((env v.id).now)⟩
                ((env v.id).writeOk) fs)).processed + 1,
            (runVideos cfg env rest
              ⟨insertId v.id st.last_seen_videos, some ((env v.id).now)⟩
              (save_state ⟨insertId v.id st.last_seen_videos, some ((env v.id).now)⟩
                ((env v.id).writeOk) fs)).postCalls + 1⟩ := by
        simp [runVideos, hseen', hp]
      obtain ⟨ih1, ih2, ih3, ih4, ih5⟩ :=
        ih ⟨insertId v.id st.last_seen_videos, some ((env v.id).now)⟩
          (save_state ⟨insertId v.id st.last_seen_videos, some ((env v.id).now)⟩
            ((env v.id).writeOk) fs) hnd'
      have hfr : rest.filter (fun w =>
            ! is_video_seen ⟨insertId v.id st.last_seen_videos, some ((env v.id).now)⟩ w.id)
          = rest.filter (fun w => ! is_video_seen st w.id) := by
        apply List.filter_congr
        intro w hw
        have hne : w.id ≠ v.id := by
          intro he
          exact hvn (by rw [← he]; exact List.mem_map_of_mem Video.id hw)
        rw [is_video_seen_insert_ne v.id w.id st (some ((env v.id).now)) hne]
      have hcnt : ((v :: rest).filter (fun w => ! is_video_seen st w.id)).length
          = (rest.filter (fun w => ! is_video_seen st w.id)).length + 1 := by
        simp [List.filter, hseen']
      have hlen : (insertId v.id st.last_seen_videos).length
          = st.last_seen_videos.length + 1 := by
        apply length_insertId_of_not_mem
        simpa [is_video_seen] using hseen'
      rw [hfr] at ih1 ih2 ih5
      refine ⟨?_, ?_, ?_, ?_, ?_⟩
      · simp only [hrun, hcnt]
        omega
      · simp only [hrun, hcnt]
        omega
      · intro w hw
        rcases List.mem_cons.mp hw with rfl | hw'
        · simp only [hrun]
          exact ih4 w.id (is_video_seen_insert_self w.id st.last_seen_videos _)
        · simp only [hrun]
          exact ih3 w hw'
      · intro w hw
        simp only [hrun]
        refine ih4 w ?_
        have hm : w ∈ st.last_seen_videos := by simpa [is_video_seen] using hw
        simpa [is_video_seen] using
          (mem_insertId v.id w st.last_seen_videos).mpr (Or.inr hm)
      · simp only [hrun, hcnt]
        dsimp only at ih5
        omega

/-- C3: when one cycle's fetch returns 3 videos with pairwise-distinct ids
(each upload's id is unique) of which exactly one is already in the seen
set, under a configured channel and the shipped `SHORTS_ONLY = False`
setting, the cycle processes exactly the 2 unseen videos, invokes
`post_comment` exactly twice, leaves every fetched id seen, and grows the
seen set by exactly 2 — for every combination of post results, timestamps
and write outcomes supplied by `env`. -/
theorem cycle_two_new_videos (cfg : AppConfig) (st : StateManager) (fs : FileContent)
    (v1 v2 v3 : Video) (env : String → VideoEnv)
    (hch : ¬ (cfg.channelId = "")) (hso : cfg.shortsOnly = false)
    (hnd : ([v1, v2, v3].map Video.id).Nodup)
    (hone : ([v1, v2, v3].filter (fun v => is_video_seen st v.id)).length = 1) :
    (check_for_new_videos cfg st fs [v1, v2, v3] env).processed = 2 ∧
    (check_for_new_videos cfg st fs [v1, v2, v3] env).postCalls = 2 ∧
    (∀ v ∈ [v1, v2, v3],
      is_video_seen (check_for_new_videos cfg st fs [v1, v2, v3] env).st v.id = true) ∧
    (check_for_new_videos cfg st fs [v1, v2, v3] env).st.last_seen_videos.length
      = st.last_seen_videos.length + 2 := by
  have hck : check_for_new_videos cfg st fs [v1, v2, v3] env
      = runVideos cfg env [v1, v2, v3] st fs := by
    simp [check_for_new_videos, hch]
  obtain ⟨h1, h2, h3, h4, h5⟩ := runVideos_spec cfg env hso [v1, v2, v3] st fs hnd
  have hcnt : ([v1, v2, v3].filter (fun v => ! is_video_seen st v.id)).length = 2 := by
    cases hb1 : is_video_seen st v1.id <;> cases hb2 : is_video_seen st v2.id <;>
      cases hb3 : is_video_seen st v3.id <;>
      simp [List.filter, hb1, hb2, hb3] at hone ⊢
  rw [hck]
  exact ⟨by rw [h1, hcnt], by rw [h2, hcnt], h3, by rw [h5, hcnt]⟩

/-- Witness for `cycle_two_new_videos`: uploads `a`, `b`, `c` with `a`
already seen. -/
theorem cycle_two_new_videos_witness :
    (check_for_new_videos ⟨"ch", false, 60⟩ ⟨["a"], none⟩ FileContent.absent
      [⟨"a", "ta", "pa"⟩, ⟨"b", "tb", "pb"⟩, ⟨"c", "tc", "pc"⟩]
      (fun _ => ⟨none, true, "now", true⟩)).processed = 2 ∧
    (check_for_new_videos ⟨"ch", false, 60⟩ ⟨["a"], none⟩ FileContent.absent
      [⟨"a", "ta", "pa"⟩, ⟨"b", "tb", "pb"⟩, ⟨"c", "tc", "pc"⟩]
      (fun _ => ⟨none, true, "now", true⟩)).postCalls = 2 ∧
    (∀ v ∈ [(⟨"a", "ta", "pa"⟩ : Video), ⟨"b", "tb", "pb"⟩, ⟨"c", "tc", "pc"⟩],
      is_video_seen
        (check_for_new_videos ⟨"ch", false, 60⟩ ⟨["a"], none⟩ FileContent.absent
          [⟨"a", "ta", "pa"⟩, ⟨"b", "tb", "pb"⟩, ⟨"c", "tc", "pc"⟩]
          (fun _ => ⟨none, true, "now", true⟩)).st v.id = true) ∧
    (check_for_new_videos ⟨"ch", false, 60⟩ ⟨["a"], none⟩ FileContent.absent
      [⟨"a", "ta", "pa"⟩, ⟨"b", "tb", "pb"⟩, ⟨"c", "tc", "pc"⟩]
      (fun _ => ⟨none, true, "now", true⟩)).st.last_seen_videos.length
      = (⟨["a"], none⟩ : StateManager).last_seen_videos.length + 2 :=
  cycle_two_new_videos ⟨"ch", false, 60⟩ ⟨["a"], none⟩ FileContent.absent
    ⟨"a", "ta", "pa"⟩ ⟨"b", "tb", "pb"⟩ ⟨"c", "tc", "pc"⟩
    (fun _ => ⟨none, true, "now", true⟩)
    (by decide) rfl (by decide) (by decide)

end AutoChatter
